import Mathlib

/-!
Shallow embedding of the Metro workflow layer (src/src/metro/metro.cpp,
src/src/metro/merging.cpp, src/src/helper.cpp) over an explicit repository
state.  The libgit2 backend (object store, merge analysis, merge execution)
is an external collaborator; it is modelled by the `Backend` structure and
by explicit state fields (branches, head, working directory, index, merge
state), following the interface listed in the specification.

Conventions of the embedding:
* commit ids are natural numbers; `nextId` is the fresh-id source used by
  commit creation (content addressing is irrelevant to the claims);
* working-directory and staged index contents are abstract content ids
  (`Nat`); writing the index as a tree is modelled as the identity on the
  staged content, so a tree records exactly the staged content;
* revision strings passed to `revparse_single` are modelled by the `Rev`
  sum: the reserved names `HEAD` and `MERGE_HEAD`, branch names, and oid
  strings (`id().str()`) are disjoint namespaces, which encodes the
  backend's revision-resolution contract;
* C++ exceptions carry the state at the throw point: operations return
  `Except (MErr × RepoState) RepoState`, no mutation is lost on error;
* `size_t` values (`std::string::find` results) are modelled as `Nat`
  below `2 ^ 64`, with `npos = 2 ^ 64 - 1`, so the source's unsigned
  comparisons are reproduced exactly.
-/

set_option autoImplicit false

namespace Metro

/-- A commit object: parent ids, tree (content id) and message.
Mirrors the commit data used by metro.cpp (`parents`, `tree`, `message`). -/
structure CommitObj where
  parents : List Nat
  tree : Nat
  message : String
deriving DecidableEq, Repr

/-- An index conflict entry (ancestor/ours/theirs triple for one path),
also serving as the detached `StandaloneConflict` copy. -/
structure ConflictEntry where
  path : String
  ancestor : Nat
  ours : Nat
  theirs : Nat
deriving DecidableEq, Repr

/-- The observable repository state: object store, branch refs, symbolic
head, working directory, index (staged content plus conflict entries) and
the persisted merge state (`MERGE_HEAD` marker and `MERGE_MSG` text; a
missing `MERGE_MSG` file reads as `""` per `read_all` in helper.cpp). -/
structure RepoState where
  commits : List (Nat × CommitObj)
  nextId : Nat
  branches : List (String × Nat)
  headBranch : String
  workdir : Nat
  indexEntries : Nat
  indexConflicts : List ConflictEntry
  mergeHead : Option Nat
  mergeMessage : String
deriving DecidableEq, Repr

/-- Error kinds of metro (exceptions.h is outside src/, but each kind is
named by the spec's section 7 and thrown at the source lines embedded
below).  `UnsupportedOperation` carries the message string of the source.
`GitError` stands for the backend's own `GitException`. -/
inductive MErr where
  | RevisionNotFound
  | BranchNotFound
  | RepositoryExists
  | CurrentlyMerging
  | NotMerging
  | UnnecessaryMerge
  | UnsupportedOperation (msg : String)
  | GitError
deriving DecidableEq, Repr

/-- Revision strings as passed to `revparse_single`, split by namespace:
`HEAD`, `MERGE_HEAD`, branch names, and oid strings (`id().str()`). -/
inductive Rev where
  | head
  | mergeHead
  | branch (name : String)
  | oid (id : Nat)
deriving DecidableEq, Repr

/-- The text of a revision, as the C++ code sees it (used for
`has_suffix` checks and for `default_merge_message`). -/
def revStr : Rev → String
  | .head => "HEAD"
  | .mergeHead => "MERGE_HEAD"
  | .branch n => n
  | .oid i => Nat.repr i

/-- Result of the backend's merge execution (`repo.merge`): the forced
working directory and staged contents, and the conflict entries left in
the index. -/
structure MergeOut where
  workdir : Nat
  staged : Nat
  conflicts : List ConflictEntry

/-- The external libgit2 collaborator: merge analysis and merge execution,
as functions of the resolved current head (`none` when head is unborn)
and the other commit id. -/
structure Backend where
  mergeAnalysis : Option Nat → Nat → Nat
  mergeExec : Option Nat → Nat → MergeOut

/-- Values of `git_merge_analysis_t` from the libgit2 public header
(external dependency): `GIT_MERGE_ANALYSIS_NONE = 0`. -/
def GIT_MERGE_ANALYSIS_NONE : Nat := 0

/-- `GIT_MERGE_ANALYSIS_NORMAL = (1 << 0)` from the libgit2 header. -/
def GIT_MERGE_ANALYSIS_NORMAL : Nat := 1

/-- `GIT_MERGE_ANALYSIS_UP_TO_DATE = (1 << 1)` from the libgit2 header. -/
def GIT_MERGE_ANALYSIS_UP_TO_DATE : Nat := 2

/-- `GIT_MERGE_ANALYSIS_FASTFORWARD = (1 << 2)` from the libgit2 header. -/
def GIT_MERGE_ANALYSIS_FASTFORWARD : Nat := 4

/-- `GIT_MERGE_ANALYSIS_UNBORN = (1 << 3)` from the libgit2 header. -/
def GIT_MERGE_ANALYSIS_UNBORN : Nat := 8

/-- Modelled from the spec: the reserved WIP-branch suffix constant
(`WIPString`, defined outside the provided sources); the spec names WIP
branches as the owning branch's name plus `#wip`. -/
def WIPString : String := "#wip"

/-- `std::string::npos` under the 64-bit `size_t` model. -/
def NPOS : Nat := 2 ^ 64 - 1

/-- Cardinality of `size_t`, for modelling unsigned wrap-around. -/
def SIZE_T_CARD : Nat := 2 ^ 64

/-- Index of the first occurrence of `c` in a character list. -/
def findCharIdx (c : Char) : List Char → Option Nat
  | [] => none
  | a :: l => if a == c then some 0 else (findCharIdx c l).map (· + 1)

/-- `str.find(c)`: index of the first occurrence of `c`, `npos` when
absent (faithful for every C++ string, whose length is below `npos`). -/
def cppFind (str : String) (c : Char) : Nat :=
  match findCharIdx c str.toList with
  | some i => i
  | none => NPOS

/-- `str.substr(pos, std::string::npos)`: the suffix from `pos`.  Every
call site of the embedding keeps `pos ≤ str.length`, where `drop` agrees
with the C++ semantics (out-of-range `pos` throws in C++). -/
def cppSubstrFrom (str : String) (pos : Nat) : String :=
  String.mk (str.toList.drop pos)

/-- helper.cpp `has_suffix`: suffix test via `compare` on the tail. -/
def has_suffix (str : String) (suff : String) : Bool :=
  if suff.length ≤ str.length then
    str.toList.drop (str.length - suff.length) == suff.toList
  else false

/-- helper.cpp `split_at_first`: split around the first occurrence of `c`;
the source compares the `size_t` result of `find` with `-1`, which
converts to `npos`.  The two output parameters are returned as a pair
`(before, after)`. -/
def split_at_first (str : String) (c : Char) : String × String :=
  let index := cppFind str c
  if index == NPOS then (str, "")
  else (String.mk (str.toList.take index), cppSubstrFrom str (index + 1))

/-- First commit id bound to `i` in the store (`git_object_lookup`). -/
def lookupCommit (s : RepoState) (i : Nat) : Option CommitObj :=
  (s.commits.find? (fun p => p.1 == i)).map Prod.snd

/-- First branch entry named `n` (`git_branch_lookup`). -/
def lookupBranch (bs : List (String × Nat)) (n : String) : Option Nat :=
  (bs.find? (fun p => p.1 == n)).map Prod.snd

/-- Retarget branch `n` to commit `i`; `create_commit` on ref `HEAD`
creates the ref when it does not exist yet. -/
def updateBranch (bs : List (String × Nat)) (n : String) (i : Nat) : List (String × Nat) :=
  if (bs.find? (fun p => p.1 == n)).isSome then
    bs.map (fun p => if p.1 == n then (n, i) else p)
  else (n, i) :: bs

/-- Remove every branch entry named `n` (`git_branch_delete`). -/
def removeBranch (bs : List (String × Nat)) (n : String) : List (String × Nat) :=
  bs.filter (fun p => p.1 != n)

/-- `revparse_single`, restricted to the revision shapes metro uses:
`HEAD` resolves through the symbolic head to its branch, `MERGE_HEAD`
through the merge-head marker, branch names through the refs, oid strings
through the object store. -/
def resolveRev (s : RepoState) : Rev → Option Nat
  | .head => lookupBranch s.branches s.headBranch
  | .mergeHead => s.mergeHead
  | .branch n => lookupBranch s.branches n
  | .oid i => if (lookupCommit s i).isSome then some i else none

/-- metro.cpp `get_commit`: resolve the revision and load the commit
object; `none` models the thrown `GitException`. -/
def get_commit (s : RepoState) (r : Rev) : Option (Nat × CommitObj) :=
  match resolveRev s r with
  | none => none
  | some i =>
    match lookupCommit s i with
    | none => none
    | some c => some (i, c)

/-- metro.cpp `merge_ongoing`: `revparse_single("MERGE_HEAD")` succeeds
(marker present and object found) iff a merge is in progress. -/
def merge_ongoing (s : RepoState) : Bool :=
  (get_commit s .mergeHead).isSome

/-- metro.cpp `branch_exists` (lookup, catching the failure). -/
def branch_exists (s : RepoState) (name : String) : Bool :=
  (lookupBranch s.branches name).isSome

/-- metro.cpp `commit_exists` (get_commit, catching the failure). -/
def commit_exists (s : RepoState) (r : Rev) : Bool :=
  (get_commit s r).isSome

/-- merging.cpp `default_merge_message`. -/
def default_merge_message (mergedName : String) : String :=
  "Absorbed " ++ mergedName

/-- merging.cpp `get_merge_message`: `read_all` of `MERGE_MSG` (an absent
file reads as the empty string). -/
def get_merge_message (s : RepoState) : String :=
  s.mergeMessage

/-- merging.cpp `set_merge_message`: `write_all` to `MERGE_MSG`. -/
def set_merge_message (s : RepoState) (message : String) : RepoState :=
  { s with mergeMessage := message }

/-- `repo.cleanup_state()` (`git_repository_state_cleanup`): removes the
`MERGE_HEAD` marker and the `MERGE_MSG` file. -/
def cleanup_state (s : RepoState) : RepoState :=
  { s with mergeHead := none, mergeMessage := "" }

/-- metro.cpp `commit` (`vector<Commit>` overload): stage the whole
working directory into the index (`add_all`, which replaces conflict
entries of staged paths by stage-0 entries, resolving the spec's open
question the way libgit2's add semantics behaves), write the index as a
tree, and create a commit moving the current head branch to it. -/
def commit (s : RepoState) (message : String) (parentCommits : List Nat) : RepoState :=
  let staged := s.workdir
  let tree := staged
  { s with
    indexEntries := staged,
    indexConflicts := [],
    commits := (s.nextId, ⟨parentCommits, tree, message⟩) :: s.commits,
    branches := updateBranch s.branches s.headBranch s.nextId,
    nextId := s.nextId + 1 }

/-- The parent-resolution loop of the revision-list `commit` overload:
resolve each revision to a commit in order, failing at the first
unresolvable one. -/
def resolveParents (s : RepoState) : List Rev → Option (List Nat)
  | [] => some []
  | r :: rest =>
    match get_commit s r with
    | none => none
    | some (i, _) =>
      match resolveParents s rest with
      | none => none
      | some ids => some (i :: ids)

/-- metro.cpp `commit` (revision-list overload): resolve every parent
revision first, failing if any does not resolve. -/
def commit_revs (s : RepoState) (message : String) (parentRevs : List Rev) :
    Except (MErr × RepoState) RepoState :=
  match resolveParents s parentRevs with
  | none => .error (.RevisionNotFound, s)
  | some ids => .ok (commit s message ids)

/-- metro.cpp `current_branch_name`: scan local branches for the one the
symbolic head points at; fail `BranchNotFound` when there is none. -/
def current_branch_name (s : RepoState) : Except (MErr × RepoState) String :=
  if (lookupBranch s.branches s.headBranch).isSome then .ok s.headBranch
  else .error (.BranchNotFound, s)

/-- metro.cpp `create_branch`: branch off the current head commit,
without forcing (an existing branch of that name is a backend error). -/
def create_branch (s : RepoState) (name : String) : Except (MErr × RepoState) RepoState :=
  match get_commit s .head with
  | none => .error (.GitError, s)
  | some (cid, _) =>
    if (lookupBranch s.branches name).isSome then .error (.GitError, s)
    else .ok { s with branches := (name, cid) :: s.branches }

/-- metro.cpp `delete_branch`: lookup then delete (lookup failure is the
backend's `GitException`). -/
def delete_branch (s : RepoState) (name : String) : Except (MErr × RepoState) RepoState :=
  if (lookupBranch s.branches name).isSome then
    .ok { s with branches := removeBranch s.branches name }
  else .error (.GitError, s)

/-- metro.cpp `move_head`: pure symbolic-ref move to the named branch. -/
def move_head (s : RepoState) (name : String) : Except (MErr × RepoState) RepoState :=
  if (lookupBranch s.branches name).isSome then .ok { s with headBranch := name }
  else .error (.GitError, s)

/-- metro.cpp `checkout`: force-checkout the commit's tree into working
directory and index, without moving head.  A forced tree checkout with
conflict entries still in the index is refused by the backend (which is
why `restore_wip` clears conflicts first). -/
def checkout (s : RepoState) (r : Rev) : Except (MErr × RepoState) RepoState :=
  match get_commit s r with
  | none => .error (.GitError, s)
  | some (_, c) =>
    if s.indexConflicts.isEmpty then
      .ok { s with workdir := c.tree, indexEntries := c.tree }
    else .error (.GitError, s)

/-- metro.cpp `has_uncommitted_changes`: status of index and working
directory against head, untracked files included; conflict entries are
status entries. -/
def has_uncommitted_changes (s : RepoState) : Bool :=
  match get_commit s .head with
  | none => true
  | some (_, c) =>
    !(s.workdir == c.tree && s.indexEntries == c.tree && s.indexConflicts.isEmpty)

/-- metro.cpp `get_conflicts`: detached copies of the index conflicts. -/
def get_conflicts (s : RepoState) : List ConflictEntry :=
  s.indexConflicts

/-- metro.cpp `delete_last_commit`: refuse to delete the root commit;
otherwise reset the head branch to the first parent, hard (forcing
working directory and index to the parent tree, clearing conflicts) or
soft (ref move only). -/
def delete_last_commit (s : RepoState) (reset : Bool) : Except (MErr × RepoState) RepoState :=
  match get_commit s .head with
  | none => .error (.GitError, s)
  | some (_, lastCommit) =>
    match lastCommit.parents with
    | [] => .error (.UnsupportedOperation "Can't delete initial commit.", s)
    | p :: _ =>
      match lookupCommit s p with
      | none => .error (.GitError, s)
      | some parent =>
        if reset then
          .ok { s with
                branches := updateBranch s.branches s.headBranch p,
                workdir := parent.tree,
                indexEntries := parent.tree,
                indexConflicts := [] }
        else
          .ok { s with branches := updateBranch s.branches s.headBranch p }

/-- metro.cpp `patch`: `assert_merging`, capture the head commit's
parents, soft-delete the last commit, then commit the working directory
with the captured parents and the new message. -/
def patch (s : RepoState) (message : String) : Except (MErr × RepoState) RepoState :=
  if merge_ongoing s then .error (.CurrentlyMerging, s)
  else
    match get_commit s .head with
    | none => .error (.GitError, s)
    | some (_, headCommit) =>
      match delete_last_commit s false with
      | .error e => .error e
      | .ok s1 => .ok (commit s1 message headCommit.parents)

/-- merging.cpp `start_merge`: resolve the revision, run merge analysis
against the current head, reject the up-to-date/none and non-normal
shapes, execute the forced merge, persist the default merge message. -/
def start_merge (B : Backend) (s : RepoState) (name : Rev) :
    Except (MErr × RepoState) RepoState :=
  match get_commit s name with
  | none => .error (.RevisionNotFound, s)
  | some (otherId, _) =>
    let analysis := B.mergeAnalysis (resolveRev s .head) otherId
    if analysis &&& (GIT_MERGE_ANALYSIS_NONE ||| GIT_MERGE_ANALYSIS_UP_TO_DATE) != 0 then
      .error (.UnnecessaryMerge, s)
    else if analysis &&& GIT_MERGE_ANALYSIS_NORMAL == 0 then
      .error (.UnsupportedOperation "Non-normal absorb not supported.", s)
    else
      let out := B.mergeExec (resolveRev s .head) otherId
      let s1 := { s with
                  workdir := out.workdir,
                  indexEntries := out.staged,
                  indexConflicts := out.conflicts,
                  mergeHead := some otherId }
      .ok (set_merge_message s1 (default_merge_message (revStr name)))

/-- merging.cpp `resolve`: require an ongoing merge, capture merge head
id and merge message before clearing state and conflicts, then commit
with parents `HEAD` and the captured merge head. -/
def resolve (s : RepoState) : Except (MErr × RepoState) RepoState :=
  if !merge_ongoing s then .error (.NotMerging, s)
  else
    match get_commit s .mergeHead with
    | none => .error (.GitError, s)
    | some (mergeHeadId, _) =>
      let message := get_merge_message s
      let s1 := cleanup_state s
      let s2 := { s1 with indexConflicts := [] }
      commit_revs s2 message [.head, .oid mergeHeadId]

/-- merging.cpp `absorb`: reject WIP-named revisions, require no ongoing
merge, start the merge; report remaining conflicts or resolve at once. -/
def absorb (B : Backend) (s : RepoState) (mergeHeadRev : Rev) :
    Except (MErr × RepoState) (Bool × RepoState) :=
  if has_suffix (revStr mergeHeadRev) WIPString then
    .error (.UnsupportedOperation "Can't absorb WIP branch.", s)
  else if merge_ongoing s then .error (.CurrentlyMerging, s)
  else
    match start_merge B s mergeHeadRev with
    | .error e => .error e
    | .ok s1 =>
      if !s1.indexConflicts.isEmpty then .ok (true, s1)
      else
        match resolve s1 with
        | .error e => .error e
        | .ok s2 => .ok (false, s2)

/-- metro.cpp `save_wip`: no-op when clean and not merging; otherwise
create the WIP branch at head, move head to it without checkout, and
commit the dirty state (stash of an ongoing merge records the merge
message after a first `WIP` line and takes the merge head as second
parent, clearing merge state after the commit). -/
def save_wip (s : RepoState) : Except (MErr × RepoState) RepoState :=
  if !(has_uncommitted_changes s || merge_ongoing s) then .ok s
  else
    match current_branch_name s with
    | .error e => .error e
    | .ok name =>
      let s1 := match delete_branch s (name ++ WIPString) with
        | .ok t => t
        | .error _ => s
      match create_branch s1 (name ++ WIPString) with
      | .error e => .error e
      | .ok s2 =>
        match move_head s2 (name ++ WIPString) with
        | .error e => .error e
        | .ok s3 =>
          if merge_ongoing s3 then
            let message := get_merge_message s3
            match commit_revs s3 ("WIP\n" ++ message) [.head, .mergeHead] with
            | .error e => .error e
            | .ok s4 => .ok (cleanup_state s4)
          else
            commit_revs s3 "WIP" [.head]

/-- The merge-resumption phase of metro.cpp `restore_wip` (lines 206-229):
when the WIP commit has a second parent, restart the merge against it,
recover the merge message from the WIP commit message (the source's
`size_t` comparison `newlineIndex >= 0`, always true, and the wrap-around
of `npos + 1` are reproduced exactly), then detach the current index
conflicts and clear them to permit the checkout. -/
def restore_wip_merge_phase (B : Backend) (s : RepoState) (wipCommit : CommitObj) :
    Except (MErr × RepoState) (RepoState × List ConflictEntry) :=
  if wipCommit.parents.length > 1 then
    match wipCommit.parents.get? 1 with
    | none => .error (.GitError, s)
    | some mergeHeadId =>
      match start_merge B s (.oid mergeHeadId) with
      | .error e => .error e
      | .ok sm =>
        let commitMessage := wipCommit.message
        let newlineIndex := cppFind commitMessage '\n'
        let sm2 :=
          if newlineIndex ≥ 0 then
            set_merge_message sm
              (cppSubstrFrom commitMessage ((newlineIndex + 1) % SIZE_T_CARD))
          else sm
        let conflicts := get_conflicts sm2
        .ok ({ sm2 with indexConflicts := [] }, conflicts)
  else .ok (s, [])

/-- metro.cpp `restore_wip`: no-op when the current branch has no WIP
branch; otherwise resume a stashed merge if any, force-checkout the WIP
tree, delete the WIP branch and re-insert the detached conflicts. -/
def restore_wip (B : Backend) (s : RepoState) : Except (MErr × RepoState) RepoState :=
  match current_branch_name s with
  | .error e => .error e
  | .ok name =>
    if !branch_exists s (name ++ WIPString) then .ok s
    else
      match get_commit s (.branch (name ++ WIPString)) with
      | none => .error (.GitError, s)
      | some (_, wipCommit) =>
        match restore_wip_merge_phase B s wipCommit with
        | .error e => .error e
        | .ok (s2, conflicts) =>
          match checkout s2 (.branch (name ++ WIPString)) with
          | .error e => .error e
          | .ok s3 =>
            match delete_branch s3 (name ++ WIPString) with
            | .error e => .error e
            | .ok s4 =>
              .ok { s4 with indexConflicts := s4.indexConflicts ++ conflicts }

/-- metro.cpp `switch_branch`: reject WIP names, require an existing
branch, then save the WIP, force-checkout the target, move head and
restore the target's WIP. -/
def switch_branch (B : Backend) (s : RepoState) (name : String) :
    Except (MErr × RepoState) RepoState :=
  if has_suffix name WIPString then
    .error (.UnsupportedOperation "Can't switch to WIP branch.", s)
  else if !branch_exists s name then .error (.BranchNotFound, s)
  else
    match save_wip s with
    | .error e => .error e
    | .ok s1 =>
      match checkout s1 (.branch name) with
      | .error e => .error e
      | .ok s2 =>
        match move_head s2 name with
        | .error e => .error e
        | .ok s3 => restore_wip B s3

deriving instance DecidableEq for Except

/-- A backend whose merge analysis always reports `GIT_MERGE_ANALYSIS_NORMAL`
and whose merge execution produces content `7` without conflicts. -/
def backendNormal : Backend := ⟨fun _ _ => 1, fun _ _ => ⟨7, 7, []⟩⟩

/-- A backend whose merge analysis always reports
`GIT_MERGE_ANALYSIS_UP_TO_DATE`. -/
def backendUpToDate : Backend := ⟨fun _ _ => 2, fun _ _ => ⟨7, 7, []⟩⟩

/-- A backend whose merge analysis always reports
`GIT_MERGE_ANALYSIS_NONE` (the zero-valued analysis result). -/
def backendNone : Backend := ⟨fun _ _ => 0, fun _ _ => ⟨7, 7, []⟩⟩

/-- The root commit of the concrete example repositories. -/
def c0 : CommitObj := ⟨[], 0, "Create repository"⟩

/-- A second commit on top of the root, used as a merge candidate. -/
def c1 : CommitObj := ⟨[0], 1, "other"⟩

/-- A repository on `master` at the root commit with a dirty working
directory (content `5` differs from the head tree `0`). -/
def exDirty : RepoState :=
  ⟨[(0, c0)], 1, [("master", 0)], "master", 5, 0, [], none, ""⟩

/-- The state produced by `save_wip exDirty`: a `WIP` commit on the
`master#wip` branch, head moved to the WIP branch. -/
def exDirtySaved : RepoState :=
  ⟨[(1, ⟨[0], 5, "WIP"⟩), (0, c0)], 2, [("master" ++ WIPString, 1), ("master", 0)],
   "master" ++ WIPString, 5, 5, [], none, ""⟩

/-- A clean repository on `master` with branches `dev` and `dev#wip`
both at commit `1`. -/
def exTwoBranches : RepoState :=
  ⟨[(1, c1), (0, c0)], 2, [("master", 0), ("dev", 1), ("dev#wip", 1)],
   "master", 0, 0, [], none, ""⟩

/-- A WIP commit with two parents whose message was tampered to a single
line without a line break. -/
def wipTampered : CommitObj := ⟨[0, 1], 9, "tampered"⟩

/-- A repository whose `master#wip` branch holds the tampered two-parent
WIP commit, with head back on `master`. -/
def exTampered : RepoState :=
  ⟨[(2, wipTampered), (1, c1), (0, c0)], 3,
   [("master", 0), ("master" ++ WIPString, 2)], "master", 9, 9, [], none, ""⟩

/-- A repository in merging state: merge head `1`, one index conflict,
merge message `Absorbed other`, dirty working directory. -/
def exMerging : RepoState :=
  ⟨[(1, c1), (0, c0)], 2, [("master", 0)], "master", 6, 6,
   [⟨"f", 1, 2, 3⟩], some 1, "Absorbed other"⟩

/-- The state produced by `save_wip exMerging`: the two-parent WIP
commit recording the merge message, merge state cleared. -/
def exMergingSaved : RepoState :=
  ⟨[(2, ⟨[0, 1], 6, "WIP\nAbsorbed other"⟩), (1, c1), (0, c0)], 3,
   [("master" ++ WIPString, 2), ("master", 0)], "master" ++ WIPString, 6, 6, [], none, ""⟩

/-- A repository with two commits, head at the child commit. -/
def exTwo : RepoState :=
  ⟨[(1, c1), (0, c0)], 2, [("master", 1)], "master", 4, 1, [], none, ""⟩

/-- A repository with exactly one (root) commit. -/
def exOne : RepoState :=
  ⟨[(0, c0)], 1, [("master", 0)], "master", 4, 0, [], none, ""⟩

theorem append_wipstring_ne (a : String) : a ++ WIPString ≠ a := by
  intro h
  have h2 := congrArg String.length h
  rw [String.length_append] at h2
  have h3 : WIPString.length = 4 := by decide
  omega

theorem lookupBranch_cons (m : String) (i : Nat) (bs : List (String × Nat)) (n : String) :
    lookupBranch ((m, i) :: bs) n = if m = n then some i else lookupBranch bs n := by
  by_cases h : m = n
  · subst h; simp [lookupBranch, List.find?]
  · have hb : (m == n) = false := by simpa using h
    simp [lookupBranch, List.find?, hb, h]

theorem lookupBranch_map_replace (bs : List (String × Nat)) (n : String) (i : Nat)
    (m : String) (h : m ≠ n) :
    lookupBranch (bs.map (fun p => if p.1 == n then (n, i) else p)) m = lookupBranch bs m := by
  induction bs with
  | nil => rfl
  | cons b bs ih =>
    obtain ⟨bn, bi⟩ := b
    by_cases hbn : bn = n
    · subst hbn
      simp only [List.map_cons, beq_self_eq_true, if_true]
      rw [lookupBranch_cons, lookupBranch_cons, if_neg (fun hh => h hh.symm),
        if_neg (fun hh => h hh.symm), ih]
    · have hb : (bn == n) = false := by simpa using hbn
      simp only [List.map_cons, hb, Bool.false_eq_true, if_false]
      rw [lookupBranch_cons, lookupBranch_cons, ih]

theorem lookupBranch_map_replace_mem (bs : List (String × Nat)) (n : String) (i : Nat)
    (h : (lookupBranch bs n).isSome = true) :
    lookupBranch (bs.map (fun p => if p.1 == n then (n, i) else p)) n = some i := by
  induction bs with
  | nil => simp [lookupBranch] at h
  | cons b bs ih =>
    obtain ⟨bn, bi⟩ := b
    by_cases hbn : bn = n
    · subst hbn
      simp only [List.map_cons, beq_self_eq_true, if_true]
      rw [lookupBranch_cons, if_pos rfl]
    · have hb : (bn == n) = false := by simpa using hbn
      simp only [List.map_cons, hb, Bool.false_eq_true, if_false]
      rw [lookupBranch_cons, if_neg hbn]
      rw [lookupBranch_cons, if_neg hbn] at h
      exact ih h

theorem lookupBranch_updateBranch_self (bs : List (String × Nat)) (n : String) (i : Nat)
    (h : (lookupBranch bs n).isSome = true) :
    lookupBranch (updateBranch bs n i) n = some i := by
  have hf : (bs.find? (fun p => p.1 == n)).isSome = true := by
    rcases hfind : bs.find? (fun p => p.1 == n) with _ | p
    · rw [lookupBranch, hfind] at h; simp at h
    · rw [hfind]; rfl
  rw [updateBranch, if_pos hf]
  exact lookupBranch_map_replace_mem bs n i h

theorem lookupBranch_updateBranch_ne (bs : List (String × Nat)) (n : String) (i : Nat)
    (m : String) (h : m ≠ n) :
    lookupBranch (updateBranch bs n i) m = lookupBranch bs m := by
  rw [updateBranch]
  by_cases hf : (bs.find? (fun p => p.1 == n)).isSome = true
  · rw [if_pos hf]; exact lookupBranch_map_replace bs n i m h
  · rw [if_neg hf, lookupBranch_cons, if_neg (fun hh => h hh.symm)]

theorem lookupBranch_removeBranch_self (bs : List (String × Nat)) (n : String) :
    lookupBranch (removeBranch bs n) n = none := by
  induction bs with
  | nil => rfl
  | cons b bs ih =>
    obtain ⟨bn, bi⟩ := b
    simp only [removeBranch] at ih ⊢
    by_cases hbn : bn = n
    · subst hbn
      simp only [removeBranch, List.filter_cons, bne_self_eq_false, Bool.false_eq_true,
        if_false]
      exact ih
    · have hb : (bn != n) = true := by simpa using hbn
      simp only [List.filter_cons, hb, if_true]
      rw [lookupBranch_cons, if_neg hbn]
      exact ih

theorem lookupBranch_removeBranch_ne (bs : List (String × Nat)) (n : String)
    (m : String) (h : m ≠ n) :
    lookupBranch (removeBranch bs n) m = lookupBranch bs m := by
  induction bs with
  | nil => rfl
  | cons b bs ih =>
    obtain ⟨bn, bi⟩ := b
    simp only [removeBranch] at ih ⊢
    by_cases hbn : bn = n
    · subst hbn
      simp only [List.filter_cons, bne_self_eq_false, Bool.false_eq_true,
        if_false]
      rw [lookupBranch_cons, if_neg (fun hh => h hh.symm)]
      exact ih
    · have hb : (bn != n) = true := by simpa using hbn
      simp only [List.filter_cons, hb, if_true]
      rw [lookupBranch_cons, lookupBranch_cons, ih]

theorem findCharIdx_none (c : Char) (l : List Char) (h : findCharIdx c l = none) :
    ¬ c ∈ l := by
  induction l with
  | nil => simp
  | cons a l ih =>
    rw [findCharIdx] at h
    by_cases ha : (a == c) = true
    · rw [if_pos ha] at h; exact absurd h (by simp)
    · rw [if_neg (by simpa using ha)] at h
      have ha2 : a ≠ c := by simpa using ha
      rcases hf : findCharIdx c l with _ | i
      · intro hm
        rcases List.mem_cons.mp hm with h1 | h2
        · exact ha2 h1.symm
        · exact ih hf h2
      · rw [hf] at h; simp at h

theorem findCharIdx_some (c : Char) (l : List Char) (i : Nat)
    (h : findCharIdx c l = some i) :
    i < l.length ∧ l.get? i = some c ∧ ∀ j, j < i → l.get? j ≠ some c := by
  induction l generalizing i with
  | nil => simp [findCharIdx] at h
  | cons a l ih =>
    rw [findCharIdx] at h
    by_cases ha : (a == c) = true
    · rw [if_pos ha] at h
      have hi : i = 0 := by simpa using h.symm
      subst hi
      refine ⟨by simp, ?_, ?_⟩
      · simpa using (eq_of_beq ha)
      · intro j hj; omega
    · rw [if_neg (by simpa using ha)] at h
      rcases hf : findCharIdx c l with _ | i'
      · rw [hf] at h; simp at h
      · rw [hf] at h
        have hi : i = i' + 1 := by simpa using h.symm
        subst hi
        obtain ⟨hlen, hget, hmin⟩ := ih i' hf
        refine ⟨by simpa using hlen, by simpa using hget, ?_⟩
        intro j hj
        cases j with
        | zero =>
          have ha2 : a ≠ c := by simpa using ha
          simpa using ha2
        | succ j' =>
          have : j' < i' := by omega
          simpa using hmin j' this

/-- C4: for every repository with a clean working directory (no
index/working-directory differences, untracked files included) and no
merge in progress, `save_wip` is a no-op: no branch is created or
deleted, no commit is created, and head is unchanged (the state is
returned exactly as given). -/
theorem save_wip_clean_noop (s : RepoState)
    (hclean : has_uncommitted_changes s = false)
    (hnm : merge_ongoing s = false) :
    save_wip s = .ok s := by
  simp [save_wip, hclean, hnm]

theorem save_wip_clean_noop_witness :
    has_uncommitted_changes exTwoBranches = false ∧
    merge_ongoing exTwoBranches = false ∧
    save_wip exTwoBranches = .ok exTwoBranches :=
  ⟨by decide, by decide, save_wip_clean_noop exTwoBranches (by decide) (by decide)⟩

/-- C9: for every name ending with the reserved WIP suffix, `absorb` and
`switch_branch` both fail with `UnsupportedOperation` before mutating any
state (the suffix check precedes everything, so no existence hypothesis
is needed); `switch_branch` fails with `BranchNotFound` when the non-WIP
name does not exist as a local branch. -/
theorem wip_name_rejection (B : Backend) (s : RepoState) (name : String) :
    (has_suffix name WIPString = true →
      absorb B s (.branch name) =
        .error (.UnsupportedOperation "Can't absorb WIP branch.", s) ∧
      switch_branch B s name =
        .error (.UnsupportedOperation "Can't switch to WIP branch.", s)) ∧
    (has_suffix name WIPString = false → branch_exists s name = false →
      switch_branch B s name = .error (.BranchNotFound, s)) := by
  constructor
  · intro h
    constructor
    · simp [absorb, revStr, h]
    · simp [switch_branch, h]
  · intro h hb
    simp [switch_branch, h, hb]

theorem wip_name_rejection_witness :
    has_suffix "dev#wip" WIPString = true ∧
    absorb backendNormal exTwoBranches (.branch "dev#wip") =
      .error (.UnsupportedOperation "Can't absorb WIP branch.", exTwoBranches) ∧
    switch_branch backendNormal exTwoBranches "dev#wip" =
      .error (.UnsupportedOperation "Can't switch to WIP branch.", exTwoBranches) ∧
    has_suffix "nope" WIPString = false ∧
    branch_exists exTwoBranches "nope" = false ∧
    switch_branch backendNormal exTwoBranches "nope" =
      .error (.BranchNotFound, exTwoBranches) := by
  have h1 := (wip_name_rejection backendNormal exTwoBranches "dev#wip").1 (by decide)
  have h2 := (wip_name_rejection backendNormal exTwoBranches "nope").2 (by decide) (by decide)
  exact ⟨by decide, h1.1, h1.2, by decide, by decide, h2⟩

/-- C10: `split_at_first` is total; when `c` does not occur in `str` it
returns `(str, "")`, and otherwise it returns the prefix strictly before
the first occurrence of `c` and everything strictly after it.  The
hypothesis is the `size_t` representability bound every C++ string
satisfies; under it the source's unsigned comparison of the `find` result
against `-1` (which converts to `npos`) detects absence exactly. -/
theorem split_at_first_spec (str : String) (c : Char)
    (hlen : str.toList.length ≤ NPOS) :
    (¬ c ∈ str.toList → split_at_first str c = (str, "")) ∧
    (c ∈ str.toList →
      ∃ k, k < str.toList.length ∧
        (split_at_first str c).1.toList = str.toList.take k ∧
        (split_at_first str c).2.toList = str.toList.drop (k + 1) ∧
        str.toList.get? k = some c ∧
        ∀ j, j < k → str.toList.get? j ≠ some c) := by
  rcases hf : findCharIdx c str.toList with _ | i
  · have habs := findCharIdx_none c str.toList hf
    have hf2 : findCharIdx c str.data = none := hf
    constructor
    · intro _
      simp [split_at_first, cppFind, String.toList, hf2]
    · intro hmem
      exact absurd hmem habs
  · obtain ⟨hlt, hget, hmin⟩ := findCharIdx_some c str.toList i hf
    have hf2 : findCharIdx c str.data = some i := hf
    have hne : (i == NPOS) = false := by
      have : i ≠ NPOS := by omega
      simpa using this
    constructor
    · intro habs
      exact absurd (List.get?_mem hget) habs
    · intro _
      refine ⟨i, hlt, ?_, ?_, hget, hmin⟩
      · simp [split_at_first, cppFind, String.toList, hf2, hne]
      · simp [split_at_first, cppFind, String.toList, hf2, hne, cppSubstrFrom]

theorem split_at_first_spec_witness :
    ("abc".toList.length ≤ NPOS ∧
      (¬ 'z' ∈ "abc".toList → split_at_first "abc" 'z' = ("abc", ""))) ∧
    ('b' ∈ "abc".toList →
      ∃ k, k < "abc".toList.length ∧
        (split_at_first "abc" 'b').1.toList = "abc".toList.take k ∧
        (split_at_first "abc" 'b').2.toList = "abc".toList.drop (k + 1) ∧
        "abc".toList.get? k = some 'b' ∧
        ∀ j, j < k → "abc".toList.get? j ≠ some 'b') :=
  ⟨⟨by decide, (split_at_first_spec "abc" 'z' (by decide)).1⟩,
    (split_at_first_spec "abc" 'b' (by decide)).2⟩

/-- C3 counterexample: the claim fails on two inputs.  A revision named
with the WIP suffix whose merge analysis reports up-to-date makes
`absorb` fail with `UnsupportedOperation`, not `UnnecessaryMerge`; and a
revision whose merge analysis reports none (`GIT_MERGE_ANALYSIS_NONE`,
which is the zero bitmask) also makes it fail with
`UnsupportedOperation`.  In both cases the state is unchanged. -/
theorem absorb_ancestor_counterexample :
    (backendUpToDate.mergeAnalysis (resolveRev exTwoBranches .head) 1 &&&
        GIT_MERGE_ANALYSIS_UP_TO_DATE ≠ 0) ∧
    merge_ongoing exTwoBranches = false ∧
    get_commit exTwoBranches (.branch "dev#wip") = some (1, c1) ∧
    absorb backendUpToDate exTwoBranches (.branch "dev#wip") =
      .error (.UnsupportedOperation "Can't absorb WIP branch.", exTwoBranches) ∧
    backendNone.mergeAnalysis (resolveRev exTwoBranches .head) 1 =
      GIT_MERGE_ANALYSIS_NONE ∧
    get_commit exTwoBranches (.branch "dev") = some (1, c1) ∧
    absorb backendNone exTwoBranches (.branch "dev") =
      .error (.UnsupportedOperation "Non-normal absorb not supported.", exTwoBranches) := by
  refine ⟨by decide, by decide, by decide, by decide, by decide, by decide, by decide⟩

/-- C3 (amended): for every repository not currently merging and every
revision that does not carry the WIP suffix and resolves to a commit, if
merge analysis reports the up-to-date bit, `absorb` fails with
`UnnecessaryMerge` and leaves the entire repository state unchanged; if
merge analysis reports none (the zero bitmask), `absorb` instead fails
with `UnsupportedOperation`, also leaving the state unchanged. -/
theorem absorb_up_to_date_spec (B : Backend) (s : RepoState) (r : Rev)
    (cid : Nat) (cobj : CommitObj)
    (hw : has_suffix (revStr r) WIPString = false)
    (hnm : merge_ongoing s = false)
    (hres : get_commit s r = some (cid, cobj)) :
    (B.mergeAnalysis (resolveRev s .head) cid &&& GIT_MERGE_ANALYSIS_UP_TO_DATE ≠ 0 →
      absorb B s r = .error (.UnnecessaryMerge, s)) ∧
    (B.mergeAnalysis (resolveRev s .head) cid = GIT_MERGE_ANALYSIS_NONE →
      absorb B s r = .error (.UnsupportedOperation "Non-normal absorb not supported.", s)) := by
  have hor : GIT_MERGE_ANALYSIS_NONE ||| GIT_MERGE_ANALYSIS_UP_TO_DATE =
      GIT_MERGE_ANALYSIS_UP_TO_DATE := by decide
  constructor
  · intro ha
    simp [absorb, hw, hnm, start_merge, hres, hor, ha]
  · intro ha
    have h1 : B.mergeAnalysis (resolveRev s .head) cid &&&
        GIT_MERGE_ANALYSIS_UP_TO_DATE = 0 := by
      rw [ha]; decide
    have h2 : B.mergeAnalysis (resolveRev s .head) cid &&&
        GIT_MERGE_ANALYSIS_NORMAL = 0 := by
      rw [ha]; decide
    simp [absorb, hw, hnm, start_merge, hres, hor, h1, h2]

theorem absorb_up_to_date_spec_witness :
    (has_suffix (revStr (.branch "dev")) WIPString = false ∧
      merge_ongoing exTwoBranches = false ∧
      get_commit exTwoBranches (.branch "dev") = some (1, c1) ∧
      backendUpToDate.mergeAnalysis (resolveRev exTwoBranches .head) 1 &&&
        GIT_MERGE_ANALYSIS_UP_TO_DATE ≠ 0) ∧
    absorb backendUpToDate exTwoBranches (.branch "dev") =
      .error (.UnnecessaryMerge, exTwoBranches) :=
  ⟨⟨by decide, by decide, by decide, by decide⟩,
    (absorb_up_to_date_spec backendUpToDate exTwoBranches (.branch "dev") 1 c1
      (by decide) (by decide) (by decide)).1 (by decide)⟩

/-- C7 failing input: when merge analysis reports `GIT_MERGE_ANALYSIS_NONE`
(the zero bitmask), `start_merge` throws `UnsupportedOperation` instead of
the `UnnecessaryMerge` required by the claim, because masking the analysis
with the zero constant `GIT_MERGE_ANALYSIS_NONE` can never set a bit. -/
theorem start_merge_none_analysis_bug :
    backendNone.mergeAnalysis (resolveRev exTwoBranches .head) 1 =
      GIT_MERGE_ANALYSIS_NONE ∧
    get_commit exTwoBranches (.branch "dev") = some (1, c1) ∧
    start_merge backendNone exTwoBranches (.branch "dev") =
      .error (.UnsupportedOperation "Non-normal absorb not supported.", exTwoBranches) := by
  refine ⟨by decide, by decide, by decide⟩

/-- C2 failing input: a two-parent WIP commit whose message `tampered`
has no line break.  The source's comparison of the `size_t` result of
`find` against `0` with `>=` is always true, and `npos + 1` wraps to `0`,
so `restore_wip` sets the merge message to the whole commit message
instead of leaving the default merge message written when the merge was
restarted. -/
theorem restore_wip_no_newline_bug :
    cppFind wipTampered.message '\n' = NPOS ∧
    wipTampered.parents.length > 1 ∧
    (restore_wip backendNormal exTampered).map
        (fun t => (t.mergeMessage, t.mergeHead)) = .ok ("tampered", some 1) ∧
    wipTampered.message ≠ default_merge_message (revStr (.oid 1)) := by
  refine ⟨by decide, by decide, by decide, by decide⟩

/-- C1 counterexample: on a dirty repository, `save_wip` moves head to
the WIP branch, and the immediately following `restore_wip` looks for a
WIP branch of the WIP branch, finds none, and returns the state
unchanged: the WIP branch still exists and the state differs from the
pre-`save_wip` state (head moved, a WIP commit added), contradicting the
claimed round trip. -/
theorem save_restore_counterexample :
    save_wip exDirty = .ok exDirtySaved ∧
    restore_wip backendNormal exDirtySaved = .ok exDirtySaved ∧
    branch_exists exDirtySaved ("master" ++ WIPString) = true ∧
    exDirtySaved ≠ exDirty := by
  refine ⟨by decide, by decide, by decide, by decide⟩

theorem resolveRev_head (s : RepoState) :
    resolveRev s .head = lookupBranch s.branches s.headBranch := rfl

theorem resolveRev_mergeHead (s : RepoState) :
    resolveRev s .mergeHead = s.mergeHead := rfl

theorem resolveRev_branch (s : RepoState) (n : String) :
    resolveRev s (.branch n) = lookupBranch s.branches n := rfl

theorem resolveRev_oid (s : RepoState) (i : Nat) :
    resolveRev s (.oid i) = if (lookupCommit s i).isSome then some i else none := rfl

theorem get_commit_eq (s : RepoState) (r : Rev) :
    get_commit s r =
      (resolveRev s r).bind (fun i => (lookupCommit s i).map (fun c => (i, c))) := by
  cases hre : resolveRev s r with
  | none => simp [get_commit, hre]
  | some i => cases hlc : lookupCommit s i <;> simp [get_commit, hre, hlc]

theorem get_commit_head_elim (s : RepoState) (H : Nat) (hc : CommitObj)
    (h : get_commit s .head = some (H, hc)) :
    lookupBranch s.branches s.headBranch = some H ∧ lookupCommit s H = some hc := by
  rw [get_commit_eq, resolveRev_head] at h
  rcases hlb : lookupBranch s.branches s.headBranch with _ | j
  · rw [hlb] at h; simp at h
  · rw [hlb] at h
    replace h : Option.map (fun c => (j, c)) (lookupCommit s j) = some (H, hc) := h
    rcases hlc : lookupCommit s j with _ | c
    · rw [hlc] at h; simp at h
    · rw [hlc] at h
      replace h : (some (j, c) : Option (Nat × CommitObj)) = some (H, hc) := h
      simp only [Option.some.injEq, Prod.mk.injEq] at h
      obtain ⟨h1, h2⟩ := h
      subst h1; subst h2
      exact ⟨rfl, hlc⟩

theorem get_commit_mergeHead_elim (s : RepoState) (M : Nat) (mc : CommitObj)
    (h : get_commit s .mergeHead = some (M, mc)) :
    s.mergeHead = some M ∧ lookupCommit s M = some mc := by
  rw [get_commit_eq, resolveRev_mergeHead] at h
  rcases hmh : s.mergeHead with _ | j
  · rw [hmh] at h; simp at h
  · rw [hmh] at h
    replace h : Option.map (fun c => (j, c)) (lookupCommit s j) = some (M, mc) := h
    rcases hlc : lookupCommit s j with _ | c
    · rw [hlc] at h; simp at h
    · rw [hlc] at h
      replace h : (some (j, c) : Option (Nat × CommitObj)) = some (M, mc) := h
      simp only [Option.some.injEq, Prod.mk.injEq] at h
      obtain ⟨h1, h2⟩ := h
      subst h1; subst h2
      exact ⟨rfl, hlc⟩

theorem lookupCommit_congr {s t : RepoState} (h : t.commits = s.commits) (i : Nat) :
    lookupCommit t i = lookupCommit s i := by
  rw [lookupCommit, lookupCommit, h]

theorem merge_ongoing_congr {s t : RepoState} (h1 : t.commits = s.commits)
    (h2 : t.mergeHead = s.mergeHead) : merge_ongoing t = merge_ongoing s := by
  rw [merge_ongoing, merge_ongoing, get_commit_eq, get_commit_eq, resolveRev_mergeHead,
    resolveRev_mergeHead, h2]
  rcases s.mergeHead with _ | m
  · rfl
  · simp [lookupCommit_congr h1]

theorem lookupCommit_commits_cons (t : RepoState) (i : Nat) (c : CommitObj)
    (rest : List (Nat × CommitObj)) (h : t.commits = (i, c) :: rest) :
    lookupCommit t i = some c := by
  rw [lookupCommit, h]
  simp [List.find?]

/-- Shape of the state after a successful `save_wip` that actually
stashed (dirty working directory or ongoing merge): head has moved to the
freshly (re)created WIP branch pointing at the new WIP commit; every
other branch is untouched; the WIP commit has the previous head as first
parent and, when a merge was in progress, the merge head as second
parent, with the merge message recorded after the `WIP` first line and
the merge state cleared afterwards. -/
theorem save_wip_success_shape (s s' : RepoState) (H : Nat) (hc : CommitObj)
    (hhead : get_commit s .head = some (H, hc))
    (hstash : has_uncommitted_changes s = true ∨ merge_ongoing s = true)
    (hok : save_wip s = .ok s') :
    s'.headBranch = s.headBranch ++ WIPString ∧
    s'.nextId = s.nextId + 1 ∧
    s'.workdir = s.workdir ∧
    lookupBranch s'.branches (s.headBranch ++ WIPString) = some s.nextId ∧
    (∀ b, b ≠ s.headBranch ++ WIPString →
      lookupBranch s'.branches b = lookupBranch s.branches b) ∧
    (merge_ongoing s = false →
      s'.commits = (s.nextId, ⟨[H], s.workdir, "WIP"⟩) :: s.commits ∧
      s'.mergeHead = s.mergeHead) ∧
    (∀ M mc, s.mergeHead = some M → lookupCommit s M = some mc →
      s'.commits = (s.nextId, ⟨[H, M], s.workdir, "WIP\n" ++ s.mergeMessage⟩) :: s.commits ∧
      s'.mergeHead = none) := by
  obtain ⟨hlb, hlc⟩ := get_commit_head_elim s H hc hhead
  have hW : s.headBranch ++ WIPString ≠ s.headBranch := append_wipstring_ne s.headBranch
  have hcond : (has_uncommitted_changes s || merge_ongoing s) = true := by
    rcases hstash with h | h <;> simp [h]
  have hcbn : current_branch_name s = .ok s.headBranch := by
    simp [current_branch_name, hlb]
  rw [save_wip, hcond] at hok
  simp only [Bool.not_true, Bool.false_eq_true, if_false, hcbn] at hok
  obtain ⟨bs1, hs1, hlb1, hwl1, hbs1⟩ :
      ∃ bs1, (match delete_branch s (s.headBranch ++ WIPString) with
              | .ok t => t
              | .error _ => s) = { s with branches := bs1 } ∧
        lookupBranch bs1 s.headBranch = some H ∧
        lookupBranch bs1 (s.headBranch ++ WIPString) = none ∧
        (∀ b, b ≠ s.headBranch ++ WIPString →
          lookupBranch bs1 b = lookupBranch s.branches b) := by
    by_cases hwl : (lookupBranch s.branches (s.headBranch ++ WIPString)).isSome = true
    · refine ⟨removeBranch s.branches (s.headBranch ++ WIPString), ?_, ?_, ?_, ?_⟩
      · simp [delete_branch, hwl]
      · rw [lookupBranch_removeBranch_ne _ _ _ (Ne.symm hW)]; exact hlb
      · exact lookupBranch_removeBranch_self _ _
      · intro b hb; exact lookupBranch_removeBranch_ne _ _ _ hb
    · refine ⟨s.branches, ?_, hlb, ?_, fun _ _ => rfl⟩
      · simp [delete_branch, hwl]
      · simpa using hwl
  rw [hs1] at hok
  have hgc1 : get_commit { s with branches := bs1 } .head = some (H, hc) := by
    rw [get_commit_eq, resolveRev_head]
    simp only []
    rw [hlb1]
    have hlc1 : lookupCommit { s with branches := bs1 } H = some hc := hlc
    show Option.map (fun c => (H, c)) (lookupCommit { s with branches := bs1 } H) =
      some (H, hc)
    rw [hlc1]
    rfl
  have hcr : create_branch { s with branches := bs1 } (s.headBranch ++ WIPString) =
      .ok { s with branches := (s.headBranch ++ WIPString, H) :: bs1 } := by
    rw [create_branch, hgc1]
    simp only []
    rw [if_neg (by rw [hwl1]; simp)]
  rw [hcr] at hok
  simp only [] at hok
  have hmv : move_head { s with branches := (s.headBranch ++ WIPString, H) :: bs1 }
      (s.headBranch ++ WIPString) =
      .ok { s with branches := (s.headBranch ++ WIPString, H) :: bs1, headBranch := s.headBranch ++ WIPString } := by
    rw [move_head]
    rw [if_pos]
    simp only []
    rw [lookupBranch_cons, if_pos rfl]
    rfl
  rw [hmv] at hok
  simp only [] at hok
  have hr3mo : merge_ongoing { s with branches := (s.headBranch ++ WIPString, H) :: bs1, headBranch := s.headBranch ++ WIPString } = merge_ongoing s :=
    merge_ongoing_congr rfl rfl
  have hgc3 : get_commit { s with branches := (s.headBranch ++ WIPString, H) :: bs1, headBranch := s.headBranch ++ WIPString } .head = some (H, hc) := by
    rw [get_commit_eq, resolveRev_head]
    simp only []
    rw [lookupBranch_cons, if_pos rfl]
    have hlc1 : lookupCommit { s with branches := (s.headBranch ++ WIPString, H) :: bs1, headBranch := s.headBranch ++ WIPString } H = some hc := hlc
    show Option.map (fun c => (H, c)) (lookupCommit { s with branches := (s.headBranch ++ WIPString, H) :: bs1, headBranch := s.headBranch ++ WIPString } H) = some (H, hc)
    rw [hlc1]
    rfl
  by_cases hmo : merge_ongoing s = true
  · -- a merge is in progress: two-parent WIP commit, then state cleanup
    have hmoS : (get_commit s .mergeHead).isSome = true := by
      rw [← merge_ongoing]; exact hmo
    obtain ⟨⟨M0, mc0⟩, hM⟩ := Option.isSome_iff_exists.mp hmoS
    obtain ⟨hmh0, hlcm0⟩ := get_commit_mergeHead_elim s M0 mc0 hM
    have hgc3m : get_commit { s with branches := (s.headBranch ++ WIPString, H) :: bs1, headBranch := s.headBranch ++ WIPString } .mergeHead = some (M0, mc0) := by
      rw [get_commit_eq, resolveRev_mergeHead]
      simp only []
      rw [hmh0]
      have hlcm1 : lookupCommit { s with branches := (s.headBranch ++ WIPString, H) :: bs1, headBranch := s.headBranch ++ WIPString } M0 = some mc0 := hlcm0
      show Option.map (fun c => (M0, c)) (lookupCommit { s with branches := (s.headBranch ++ WIPString, H) :: bs1, headBranch := s.headBranch ++ WIPString } M0) = some (M0, mc0)
      rw [hlcm1]
      rfl
    rw [hr3mo, hmo] at hok
    rw [if_pos rfl] at hok
    have hrp : resolveParents { s with branches := (s.headBranch ++ WIPString, H) :: bs1, headBranch := s.headBranch ++ WIPString } [.head, .mergeHead] = some [H, M0] := by
      rw [resolveParents, hgc3]
      simp only []
      rw [resolveParents, hgc3m]
      simp only []
      rw [resolveParents]
    rw [commit_revs, hrp] at hok
    simp only [Except.ok.injEq] at hok
    subst hok
    refine ⟨rfl, rfl, rfl, ?_, ?_, ?_, ?_⟩
    · show lookupBranch (updateBranch ((s.headBranch ++ WIPString, H) :: bs1)
        (s.headBranch ++ WIPString) s.nextId) (s.headBranch ++ WIPString) = some s.nextId
      apply lookupBranch_updateBranch_self
      rw [lookupBranch_cons, if_pos rfl]; rfl
    · intro b hb
      show lookupBranch (updateBranch ((s.headBranch ++ WIPString, H) :: bs1)
        (s.headBranch ++ WIPString) s.nextId) b = lookupBranch s.branches b
      rw [lookupBranch_updateBranch_ne _ _ _ _ hb, lookupBranch_cons,
        if_neg (fun hh => hb hh.symm), hbs1 b hb]
    · intro hmo2; rw [hmo2] at hmo; exact absurd hmo (by simp)
    · intro M mc hM2 hlcm2
      rw [hmh0] at hM2
      have hMM : M0 = M := by simpa using hM2
      subst hMM
      exact ⟨rfl, rfl⟩
  · -- no merge in progress: single-parent WIP commit
    have hmo' : merge_ongoing s = false := by simpa using hmo
    rw [hr3mo, hmo'] at hok
    rw [if_neg (by simp)] at hok
    have hrp : resolveParents { s with branches := (s.headBranch ++ WIPString, H) :: bs1, headBranch := s.headBranch ++ WIPString } [.head] = some [H] := by
      rw [resolveParents, hgc3]
      simp only []
      rw [resolveParents]
    rw [commit_revs, hrp] at hok
    simp only [Except.ok.injEq] at hok
    subst hok
    refine ⟨rfl, rfl, rfl, ?_, ?_, ?_, ?_⟩
    · show lookupBranch (updateBranch ((s.headBranch ++ WIPString, H) :: bs1)
        (s.headBranch ++ WIPString) s.nextId) (s.headBranch ++ WIPString) = some s.nextId
      apply lookupBranch_updateBranch_self
      rw [lookupBranch_cons, if_pos rfl]; rfl
    · intro b hb
      show lookupBranch (updateBranch ((s.headBranch ++ WIPString, H) :: bs1)
        (s.headBranch ++ WIPString) s.nextId) b = lookupBranch s.branches b
      rw [lookupBranch_updateBranch_ne _ _ _ _ hb, lookupBranch_cons,
        if_neg (fun hh => hb hh.symm), hbs1 b hb]
    · intro _; exact ⟨rfl, rfl⟩
    · intro M mc hM2 hlcm2
      exfalso
      have : merge_ongoing s = true := by
        rw [merge_ongoing, get_commit_eq, resolveRev_mergeHead, hM2]
        simp [hlcm2]
      rw [this] at hmo'
      exact absurd hmo' (by simp)

/-- C5: every WIP commit created by `save_wip` has exactly one parent
(the previous head) with message `WIP` when no merge is in progress, and
exactly two parents (the previous head and the merge head) with message
`WIP`, a line break, and the stored merge message when a merge is in
progress; the merge state is cleared only after the commit is created
(the commit records the pre-clear merge message and merge head, and the
resulting state has the merge state cleared). -/
theorem save_wip_commit_shape (s s' : RepoState) (H : Nat) (hc : CommitObj)
    (hhead : get_commit s .head = some (H, hc))
    (hstash : has_uncommitted_changes s = true ∨ merge_ongoing s = true)
    (hok : save_wip s = .ok s') :
    (merge_ongoing s = false →
      lookupCommit s' s.nextId = some ⟨[H], s.workdir, "WIP"⟩) ∧
    (∀ M mc, s.mergeHead = some M → lookupCommit s M = some mc →
      lookupCommit s' s.nextId = some ⟨[H, M], s.workdir, "WIP\n" ++ s.mergeMessage⟩ ∧
      s'.mergeHead = none) := by
  obtain ⟨h1, h2, h3, h4, h5, h6, h7⟩ := save_wip_success_shape s s' H hc hhead hstash hok
  constructor
  · intro hmo
    obtain ⟨hcm, hmh⟩ := h6 hmo
    exact lookupCommit_commits_cons s' s.nextId _ _ hcm
  · intro M mc hM hmc
    obtain ⟨hcm, hmh⟩ := h7 M mc hM hmc
    exact ⟨lookupCommit_commits_cons s' s.nextId _ _ hcm, hmh⟩

theorem save_wip_commit_shape_witness :
    (get_commit exMerging .head = some (0, c0) ∧
      merge_ongoing exMerging = true ∧
      save_wip exMerging = .ok exMergingSaved ∧
      exMerging.mergeHead = some 1 ∧
      lookupCommit exMerging 1 = some c1) ∧
    (lookupCommit exMergingSaved exMerging.nextId =
        some ⟨[0, 1], exMerging.workdir, "WIP\n" ++ exMerging.mergeMessage⟩ ∧
      exMergingSaved.mergeHead = none) :=
  ⟨⟨by decide, by decide, by decide, by decide, by decide⟩,
    (save_wip_commit_shape exMerging exMergingSaved 0 c0 (by decide)
      (Or.inr (by decide)) (by decide)).2 1 c1 (by decide) (by decide)⟩

/-- C1 (amended): after `save_wip` actually stashes (dirty working
directory or ongoing merge), head sits on the freshly created WIP branch,
so calling `restore_wip` immediately afterwards is a no-op: it returns
the post-`save_wip` state unchanged and the WIP branch for the original
branch still exists.  The stash is restored only when head is first moved
back to the stashed branch, as `switch_branch` does. -/
theorem save_then_restore_noop (B : Backend) (s s' : RepoState) (name : String)
    (H : Nat) (hc : CommitObj)
    (hname : current_branch_name s = .ok name)
    (hhead : get_commit s .head = some (H, hc))
    (hstash : has_uncommitted_changes s = true ∨ merge_ongoing s = true)
    (hnowip2 : branch_exists s ((name ++ WIPString) ++ WIPString) = false)
    (hok : save_wip s = .ok s') :
    restore_wip B s' = .ok s' ∧
    branch_exists s' (name ++ WIPString) = true ∧
    s'.headBranch = name ++ WIPString := by
  have hnm : name = s.headBranch := by
    rw [current_branch_name] at hname
    by_cases hcnd : (lookupBranch s.branches s.headBranch).isSome = true
    · rw [if_pos hcnd] at hname
      simp only [Except.ok.injEq] at hname
      exact hname.symm
    · rw [if_neg hcnd] at hname
      exact absurd hname (by simp)
  subst hnm
  obtain ⟨h1, h2, h3, h4, h5, h6, h7⟩ := save_wip_success_shape s s' H hc hhead hstash hok
  have hwip2 : lookupBranch s'.branches ((s.headBranch ++ WIPString) ++ WIPString) = none := by
    rw [h5 _ (append_wipstring_ne _)]
    rw [branch_exists] at hnowip2
    simpa using hnowip2
  have hcbn2 : current_branch_name s' = .ok (s.headBranch ++ WIPString) := by
    rw [current_branch_name, h1]
    rw [if_pos (by rw [h4]; rfl)]
  have hbe2 : branch_exists s' ((s.headBranch ++ WIPString) ++ WIPString) = false := by
    rw [branch_exists, hwip2]
    rfl
  refine ⟨?_, by rw [branch_exists, h4]; rfl, h1⟩
  rw [restore_wip, hcbn2]
  simp only [hbe2, Bool.not_false, if_true]

theorem save_then_restore_noop_witness :
    (current_branch_name exDirty = .ok "master" ∧
      get_commit exDirty .head = some (0, c0) ∧
      has_uncommitted_changes exDirty = true ∧
      branch_exists exDirty (("master" ++ WIPString) ++ WIPString) = false ∧
      save_wip exDirty = .ok exDirtySaved) ∧
    (restore_wip backendNormal exDirtySaved = .ok exDirtySaved ∧
      branch_exists exDirtySaved ("master" ++ WIPString) = true ∧
      exDirtySaved.headBranch = "master" ++ WIPString) :=
  ⟨⟨by decide, by decide, by decide, by decide, by decide⟩,
    save_then_restore_noop backendNormal exDirty exDirtySaved "master" 0 c0 (by decide)
      (by decide) (Or.inl (by decide)) (by decide) (by decide)⟩

theorem commit_revs_eq_some (s : RepoState) (m : String) (rs : List Rev) (ids : List Nat)
    (h : resolveParents s rs = some ids) :
    commit_revs s m rs = .ok (commit s m ids) := by
  rw [commit_revs, h]

/-- C6: `resolve` fails with `NotMerging` when no merge is in progress
and leaves the repository unchanged; when a merge is in progress it
captures the merge head's commit id and the stored merge message before
clearing merge state and index conflicts, and creates a commit whose
parents are exactly the current head and the captured merge head and
whose message is the captured merge message, ending with no merge in
progress. -/
theorem resolve_spec (s : RepoState) :
    (merge_ongoing s = false → resolve s = .error (.NotMerging, s)) ∧
    (∀ M mc H hc, s.mergeHead = some M → lookupCommit s M = some mc →
      get_commit s .head = some (H, hc) →
      ∃ t, resolve s = .ok t ∧
        lookupCommit t s.nextId = some ⟨[H, M], s.workdir, s.mergeMessage⟩ ∧
        lookupBranch t.branches s.headBranch = some s.nextId ∧
        t.mergeHead = none ∧ merge_ongoing t = false ∧ t.indexConflicts = []) := by
  constructor
  · intro hmo
    rw [resolve, hmo]
    rfl
  · intro M mc H hc hM hmc hhead
    obtain ⟨hlb, hlc⟩ := get_commit_head_elim s H hc hhead
    have hmo : merge_ongoing s = true := by
      rw [merge_ongoing, get_commit_eq, resolveRev_mergeHead, hM]
      simp [hmc]
    have hgcm : get_commit s .mergeHead = some (M, mc) := by
      rw [get_commit_eq, resolveRev_mergeHead, hM]
      show Option.map (fun c => (M, c)) (lookupCommit s M) = some (M, mc)
      rw [hmc]
      rfl
    have hstep : resolve s =
        commit_revs { s with mergeHead := none, mergeMessage := "", indexConflicts := [] } s.mergeMessage [.head, .oid M] := by
      rw [resolve, hmo]
      rw [if_neg (by simp)]
      rw [hgcm]
      rfl
    have hgch2 : get_commit { s with mergeHead := none, mergeMessage := "", indexConflicts := [] } .head = some (H, hc) := by
      rw [get_commit_eq, resolveRev_head]
      simp only []
      rw [hlb]
      have hlc2 : lookupCommit { s with mergeHead := none, mergeMessage := "", indexConflicts := [] } H = some hc := hlc
      show Option.map (fun c => (H, c)) (lookupCommit { s with mergeHead := none, mergeMessage := "", indexConflicts := [] } H) = some (H, hc)
      rw [hlc2]
      rfl
    have hmc2 : lookupCommit { s with mergeHead := none, mergeMessage := "", indexConflicts := [] } M = some mc := hmc
    have hgco2 : get_commit { s with mergeHead := none, mergeMessage := "", indexConflicts := [] } (.oid M) = some (M, mc) := by
      rw [get_commit_eq, resolveRev_oid, hmc2]
      show Option.map (fun c => (M, c)) (lookupCommit { s with mergeHead := none, mergeMessage := "", indexConflicts := [] } M) = some (M, mc)
      rw [hmc2]
      rfl
    have hrp : resolveParents { s with mergeHead := none, mergeMessage := "", indexConflicts := [] } [.head, .oid M] = some [H, M] := by
      rw [resolveParents, hgch2]
      simp only []
      rw [resolveParents, hgco2]
      simp only []
      rw [resolveParents]
    refine ⟨commit { s with mergeHead := none, mergeMessage := "", indexConflicts := [] } s.mergeMessage [H, M], ?_, ?_, ?_, rfl, rfl, rfl⟩
    · rw [hstep]
      exact commit_revs_eq_some _ _ _ _ hrp
    · exact lookupCommit_commits_cons _ _ _ _ rfl
    · show lookupBranch (updateBranch s.branches s.headBranch s.nextId) s.headBranch =
        some s.nextId
      apply lookupBranch_updateBranch_self
      rw [hlb]
      rfl

theorem resolve_spec_witness :
    (merge_ongoing exTwoBranches = false ∧
      resolve exTwoBranches = .error (.NotMerging, exTwoBranches)) ∧
    (merge_ongoing exMerging = true ∧ exMerging.mergeHead = some 1 ∧
      lookupCommit exMerging 1 = some c1 ∧ get_commit exMerging .head = some (0, c0)) ∧
    (∃ t, resolve exMerging = .ok t ∧
      lookupCommit t exMerging.nextId =
        some ⟨[0, 1], exMerging.workdir, exMerging.mergeMessage⟩ ∧
      lookupBranch t.branches exMerging.headBranch = some exMerging.nextId ∧
      t.mergeHead = none ∧ merge_ongoing t = false ∧ t.indexConflicts = []) :=
  ⟨⟨by decide, (resolve_spec exTwoBranches).1 (by decide)⟩,
    ⟨by decide, by decide, by decide, by decide⟩,
    (resolve_spec exMerging).2 1 c1 0 c0 (by decide) (by decide) (by decide)⟩

/-- C8: `patch` fails with `CurrentlyMerging` when a merge is in
progress; on a repository whose head commit has no parents it fails with
`UnsupportedOperation`; otherwise it replaces the head commit with a new
commit carrying the same parent list, the given message and the current
working-directory state, the intermediate soft reset leaving working
directory and index untouched. -/
theorem patch_spec (s : RepoState) (message : String) :
    (merge_ongoing s = true → patch s message = .error (.CurrentlyMerging, s)) ∧
    (∀ H hc, merge_ongoing s = false → get_commit s .head = some (H, hc) →
      (hc.parents = [] →
        patch s message =
          .error (.UnsupportedOperation "Can't delete initial commit.", s)) ∧
      (∀ s1, delete_last_commit s false = .ok s1 →
        s1.workdir = s.workdir ∧ s1.indexEntries = s.indexEntries ∧
        s1.indexConflicts = s.indexConflicts) ∧
      (∀ p ps pc, hc.parents = p :: ps → lookupCommit s p = some pc →
        ∃ t, patch s message = .ok t ∧
          lookupCommit t s.nextId = some ⟨hc.parents, s.workdir, message⟩ ∧
          lookupBranch t.branches s.headBranch = some s.nextId ∧
          t.workdir = s.workdir ∧ t.headBranch = s.headBranch)) := by
  constructor
  · intro hmo
    rw [patch, hmo]
    rfl
  · intro H hc hmo hhead
    obtain ⟨hlb, hlc⟩ := get_commit_head_elim s H hc hhead
    refine ⟨?_, ?_, ?_⟩
    · intro hpar
      have hdel : delete_last_commit s false =
          .error (.UnsupportedOperation "Can't delete initial commit.", s) := by
        rw [delete_last_commit, hhead]
        simp only []
        rw [hpar]
      rw [patch, hmo]
      rw [if_neg (by simp)]
      rw [hhead]
      simp only []
      rw [hdel]
    · intro s1 hdel1
      rw [delete_last_commit, hhead] at hdel1
      simp only [] at hdel1
      rcases hpar : hc.parents with _ | ⟨p, ps⟩
      · rw [hpar] at hdel1
        exact absurd hdel1 (by simp)
      · rw [hpar] at hdel1
        simp only [] at hdel1
        rcases hpc : lookupCommit s p with _ | pc
        · rw [hpc] at hdel1
          exact absurd hdel1 (by simp)
        · rw [hpc] at hdel1
          simp only [] at hdel1
          rw [if_neg (by simp)] at hdel1
          simp only [Except.ok.injEq] at hdel1
          subst hdel1
          exact ⟨rfl, rfl, rfl⟩
    · intro p ps pc hpar hpc
      have hdel : delete_last_commit s false =
          .ok { s with branches := updateBranch s.branches s.headBranch p } := by
        rw [delete_last_commit, hhead]
        simp only []
        rw [hpar]
        simp only []
        rw [hpc]
        simp only []
        rw [if_neg (by simp)]
      rw [patch, hmo]
      rw [if_neg (by simp)]
      rw [hhead]
      simp only []
      rw [hdel]
      simp only []
      refine ⟨commit { s with branches := updateBranch s.branches s.headBranch p }
        message hc.parents, rfl, ?_, ?_, rfl, rfl⟩
      · exact lookupCommit_commits_cons _ _ _ _ rfl
      · show lookupBranch (updateBranch (updateBranch s.branches s.headBranch p)
            s.headBranch s.nextId) s.headBranch = some s.nextId
        apply lookupBranch_updateBranch_self
        rw [lookupBranch_updateBranch_self _ _ _ (by rw [hlb]; rfl)]
        rfl

theorem patch_spec_witness :
    (merge_ongoing exMerging = true ∧
      patch exMerging "m" = .error (.CurrentlyMerging, exMerging)) ∧
    (merge_ongoing exOne = false ∧ get_commit exOne .head = some (0, c0) ∧
      c0.parents = [] ∧
      patch exOne "new message" =
        .error (.UnsupportedOperation "Can't delete initial commit.", exOne)) ∧
    (merge_ongoing exTwo = false ∧ get_commit exTwo .head = some (1, c1) ∧
      c1.parents = [0] ∧ lookupCommit exTwo 0 = some c0 ∧
      (∃ t, patch exTwo "new message" = .ok t ∧
        lookupCommit t exTwo.nextId = some ⟨c1.parents, exTwo.workdir, "new message"⟩ ∧
        lookupBranch t.branches exTwo.headBranch = some exTwo.nextId ∧
        t.workdir = exTwo.workdir ∧ t.headBranch = exTwo.headBranch)) :=
  ⟨⟨by decide, (patch_spec exMerging "m").1 (by decide)⟩,
    ⟨by decide, by decide, by decide,
      ((patch_spec exOne "new message").2 0 c0 (by decide) (by decide)).1 (by decide)⟩,
    ⟨by decide, by decide, by decide, by decide,
      ((patch_spec exTwo "new message").2 1 c1 (by decide) (by decide)).2.2 0 [] c0
        (by decide) (by decide)⟩⟩

end Metro
